import Mathlib

/-!
Verification of the call-site scanner in search_for_statusdb_interactions.py.

The Python source is shallowly embedded: the relevant fragment of the Python
abstract syntax is an inductive type, the NodeVisitor traversal is a pure
function threading the visitor state, Python exceptions (AttributeError,
TypeError, a file read or parse failure) are modelled with Except, and a
Python value that may be either a string or a leaked AST object is the type
PyVal. Strings are Lean strings; machine integers do not occur.
-/

namespace StatusDB

/-- Python exceptions that the scanner can raise. -/
inductive PyError
  | attributeError (field : String)
  | typeError
  | parseError (fileName : String)
  deriving DecidableEq, Repr

/-- The fragment of the Python ast expression nodes the scanner inspects:
ast.Name, ast.Constant (string constants), ast.FormattedValue, ast.JoinedStr,
ast.Attribute and ast.Call (keyword arguments kept as their names, which is
all the source reads; the call carries its line number). -/
inductive Expr
  | name (id : String)
  | const (value : String)
  | formatted (value : Expr)
  | fstring (values : List Expr)
  | attrAccess (value : Expr) (field : String)
  | call (func : Expr) (args : List Expr) (keywords : List String) (lineno : Nat)

/-- The fragment of the Python ast statement nodes the visitor dispatches on:
ast.ClassDef, ast.FunctionDef and an expression statement holding a call. -/
inductive Stmt
  | classDef (name : String) (body : List Stmt)
  | funcDef (name : String) (body : List Stmt)
  | exprStmt (e : Expr)

/-- A Python runtime value as stored in Context.argument: normally a string,
but the fallback branch argument = arg.value can leak an AST object
(for example ast.Attribute.value, the base expression). -/
inductive PyVal
  | str (s : String)
  | node (e : Expr)

/-- Substring test on char lists: does pat occur somewhere in the list? -/
def isPrefixList : List Char → List Char → Bool
  | [], _ => true
  | _ :: _, [] => false
  | p :: ps, c :: cs => p == c && isPrefixList ps cs

/-- Helper for strContains: scan every suffix. -/
def containsSub (pat : List Char) : List Char → Bool
  | [] => isPrefixList pat []
  | c :: cs => isPrefixList pat (c :: cs) || containsSub pat cs

/-- The Python test pat in s on strings. -/
def strContains (s pat : String) : Bool := containsSub pat.data s.data

/-- Context, the call record built by FunctionCallVisitor.visit_Call. -/
structure Context where
  file_name : String
  line_number : Nat
  object : String
  argument : PyVal
  keyword_arguments : List String
  function_scope : Option String
  class_scope : Option String

/-- Context.to_key: (file, class-or-empty, function-or-empty). -/
def Context.to_key (c : Context) : String × String × String :=
  (c.file_name, c.class_scope.getD "", c.function_scope.getD "")

/-- Context.has_variables: the marker test on argument, else on object.
The in test on a non-string argument raises TypeError in Python. -/
def Context.has_variables (c : Context) : Except PyError Bool :=
  match c.argument with
  | .str s => .ok (strContains s "<variable:" || strContains c.object "<variable:")
  | .node _ => .error .typeError

/-- The marker text the scanner uses for an unresolved variable; this is the
rendering of the specification's UnknownVariable(name). -/
def unknownVariable (name : String) : String := "<variable:" ++ name ++ ">"

/-- handle_joined_str on one element of ast.JoinedStr.values: a
FormattedValue whose inner node is a Name yields the marker; any other inner
node lacks the id attribute (AttributeError); a string Constant yields its
text via value.s; any other element lacks the s attribute. -/
def fragToStr : Expr → Except PyError String
  | .formatted (.name id) => .ok (unknownVariable id)
  | .formatted _ => .error (.attributeError "id")
  | .const s => .ok s
  | _ => .error (.attributeError "s")

/-- handle_joined_str: join the per-element strings in source order. -/
def handle_joined_str (values : List Expr) : Except PyError String :=
  values.foldlM (fun acc v => (fragToStr v).map (acc ++ ·)) ""

/-- The per-argument classification inside visit_Call's argument loop:
a Name becomes the variable marker, a JoinedStr is flattened, and every
other node falls to argument = arg.value — a string for a Constant, the
leaked base AST object for an Attribute or FormattedValue, and an
AttributeError for an ast.Call, which has no value field. -/
def classifyArg : Expr → Except PyError PyVal
  | .name id => .ok (.str (unknownVariable id))
  | .fstring values => (handle_joined_str values).map .str
  | .const v => .ok (.str v)
  | .attrAccess value _ => .ok (.node value)
  | .formatted value => .ok (.node value)
  | .call _ _ _ _ => .error (.attributeError "value")

/-- The argument loop of visit_Call: argument starts as the empty string and
is reassigned by the classification of each positional argument in turn. -/
def computeArgument (args : List Expr) : Except PyError PyVal :=
  args.foldlM (fun _ arg => classifyArg arg) (.str "")

/-- The receiver classification of visit_Call on node.func.value: a Name
becomes the variable marker; an Attribute whose rightmost accessed name is
db becomes the db marker, any other Attribute its rightmost accessed name;
every other node has no attr field, so Python raises AttributeError. -/
def classifyReceiver : Expr → Except PyError String
  | .name id => .ok (unknownVariable id)
  | .attrAccess _ field => .ok (if field == "db" then "<variable:db>" else field)
  | _ => .error (.attributeError "attr")

/-- The guarded block of visit_Call: when node.func is an Attribute whose
attr equals the target function, build the Context from the argument loop,
the keyword names and the receiver classification; otherwise record nothing.
The argument loop runs before the receiver classification, as in the source. -/
def visitTargetCall (tf file : String) (fs cs : Option String) (args : List Expr)
    (keywords : List String) (lineno : Nat) : Expr → Except PyError (List Context)
  | .attrAccess value a =>
      if a == tf then do
        let argument ← computeArgument args
        let object ← classifyReceiver value
        pure [⟨file, lineno, object, argument, keywords, fs, cs⟩]
      else pure []
  | _ => pure []

mutual

/-- The expression part of the traversal: visit_Call records a Context for a
call whose func is an Attribute with attr equal to the target function, then
generic_visit descends into the child nodes in field order. Expressions never
touch the scope fields, so only the target function, file name and the two
scope values are needed to produce the recorded contexts in order. -/
def collectCalls (tf file : String) (fs cs : Option String) : Expr → Except PyError (List Context)
  | .name _ => .ok []
  | .const _ => .ok []
  | .formatted value => collectCalls tf file fs cs value
  | .fstring values => collectCallsList tf file fs cs values
  | .attrAccess value _ => collectCalls tf file fs cs value
  | .call func args keywords lineno => do
      let here ← visitTargetCall tf file fs cs args keywords lineno func
      let fromFunc ← collectCalls tf file fs cs func
      let fromArgs ← collectCallsList tf file fs cs args
      pure (here ++ (fromFunc ++ fromArgs))

/-- generic_visit over a list of child expressions, in order. -/
def collectCallsList (tf file : String) (fs cs : Option String) : List Expr → Except PyError (List Context)
  | [] => .ok []
  | e :: es => do
      let l ← collectCalls tf file fs cs e
      let ls ← collectCallsList tf file fs cs es
      pure (l ++ ls)

end

/-- The mutable fields of FunctionCallVisitor. -/
structure VState where
  function_calls : List Context
  current_function : Option String
  current_class : Option String
  prev_function : Option String

mutual

/-- The statement part of the traversal. visit_ClassDef sets current_class,
descends, then resets it to None. visit_FunctionDef saves current_function
into the single prev_function field, descends, then sets current_function to
whatever prev_function holds after the body — the field is not a stack, so a
function entry inside the body clobbers it. -/
def visitStmt (tf file : String) (s : VState) : Stmt → Except PyError VState
  | .classDef name body => do
      let s1 ← visitStmts tf file { s with current_class := some name } body
      pure { s1 with current_class := none }
  | .funcDef name body => do
      let s1 ← visitStmts tf file
        { s with prev_function := s.current_function, current_function := some name } body
      pure { s1 with current_function := s1.prev_function }
  | .exprStmt e => do
      let cs ← collectCalls tf file s.current_function s.current_class e
      pure { s with function_calls := s.function_calls ++ cs }

/-- generic_visit over a statement list, in order. -/
def visitStmts (tf file : String) (s : VState) : List Stmt → Except PyError VState
  | [] => .ok s
  | st :: rest => do
      let s1 ← visitStmt tf file s st
      visitStmts tf file s1 rest

end

/-- Running FunctionCallVisitor on a parsed module body and reading
function_calls, as check_file does. -/
def runVisitor (tf file : String) (body : List Stmt) : Except PyError (List Context) :=
  (visitStmts tf file ⟨[], none, none, none⟩ body).map (·.function_calls)

/-- One data row of the manual curation file, cells as read by pandas with
missing cells already normalised to the empty string (df.fillna). -/
structure CurationRow where
  Path : String
  Class : String
  Function : String
  Database_variable_name : String
  Database_variable_value : String
  View_variable_name : String
  View_variable_value : String

/-- The key tuple row[[Path, Class, Function]]. -/
abbrev CurationKey := String × String × String

/-- The value tuple row[[Database_variable_name, Database_variable_value,
View_variable_name, View_variable_value]]; val_t[0] is .1, val_t[1] is .2.1,
val_t[2] is .2.2.1 and val_t[3] is .2.2.2. -/
abbrev CurationVal := String × String × String × String

/-- Key of a row. -/
def rowKey (r : CurationRow) : CurationKey := (r.Path, r.Class, r.Function)

/-- Value tuple of a row. -/
def rowVal (r : CurationRow) : CurationVal :=
  (r.Database_variable_name, r.Database_variable_value,
   r.View_variable_name, r.View_variable_value)

/-- One step of ManualCuration.parse: create the key with an empty list on
first sight (at the dictionary's insertion-order end), then append the value
tuple to the key's list. The dictionary is an insertion-ordered association
list, as Python dictionaries are. -/
def appendEntry : List (CurationKey × List CurationVal) → CurationKey → CurationVal →
    List (CurationKey × List CurationVal)
  | [], k, v => [(k, [v])]
  | (k0, vs) :: rest, k, v =>
      if k0 = k then (k0, vs ++ [v]) :: rest else (k0, vs) :: appendEntry rest k v

/-- ManualCuration.parse over the data rows in file order (reading the file
and dropping comment lines is done by pandas and is not modelled; parse is
given the resulting rows). -/
def parse (rows : List CurationRow) : List (CurationKey × List CurationVal) :=
  rows.foldl (fun fields row => appendEntry fields (rowKey row) (rowVal row)) []

/-- Dictionary access self.fields[key], with the guard key in self.fields
folded in: an absent key yields the empty list, which makes the loop over it
in compare_against_manual_curation run zero times, exactly as the guard does. -/
def lookupCuration : List (CurationKey × List CurationVal) → CurationKey → List CurationVal
  | [], _ => []
  | (k0, vs) :: rest, k => if k0 = k then vs else lookupCuration rest k

/-- The new Context built from a matching curation value tuple: object gets
val_t[1], argument gets val_t[3], everything else is copied. -/
def substCuration (context : Context) (val_t : CurationVal) : Context :=
  { context with object := val_t.2.1, argument := .str val_t.2.2.2 }

/-- The matching test of compare_against_manual_curation: context.object
equals val_t[0] and context.argument equals val_t[2]; Python string equality
against a non-string argument object is False, never an error. -/
def matchesCuration (context : Context) (val_t : CurationVal) : Bool :=
  context.object == val_t.1 &&
  (match context.argument with
   | .str s => s == val_t.2.2.1
   | .node _ => false)

/-- ManualCuration.compare_against_manual_curation: for every value tuple
under the record's key, in order, append the substituted Context when the
matching test passes. -/
def compare_against_manual_curation (fields : List (CurationKey × List CurationVal))
    (context : Context) : List Context :=
  (lookupCuration fields context.to_key).foldl
    (fun acc val_t =>
      if matchesCuration context val_t then acc ++ [substCuration context val_t]
      else acc) []

/-- The suggestion string built in check_file for a context whose argument is
the string s (the branch is only reached when the argument is a string,
because has_variables tests the argument first). -/
def buildSuggestion (context : Context) (s : String) : String :=
  let key := context.to_key
  key.1 ++ "," ++ key.2.1 ++ "," ++ key.2.2 ++ "," ++ context.object ++ "," ++
  (if strContains context.object "<variable:" then "---possible db value---"
   else context.object) ++
  "," ++ s ++ "," ++
  (if strContains s "<variable:" then "---possible view value---" else s) ++
  "\n"

/-- What check_file emits for one collected context. -/
inductive RecordOutput
  | curated (reports : List Context)
  | suggestion (line : String)
  | direct (report : Context)

/-- The per-context dispatch in check_file's loop: a non-empty result of
compare_against_manual_curation is printed and suppresses everything else;
otherwise has_variables decides between the suggestion (TypeError when the
argument is a leaked AST object, since the in test runs on it first) and the
direct report context.print(). -/
def resolveContext (fields : List (CurationKey × List CurationVal)) (context : Context) :
    Except PyError RecordOutput :=
  let extra := compare_against_manual_curation fields context
  if extra.isEmpty then
    match context.argument with
    | .node _ => .error .typeError
    | .str s =>
        if strContains s "<variable:" || strContains context.object "<variable:" then
          .ok (.suggestion (buildSuggestion context s))
        else .ok (.direct context)
  else .ok (.curated extra)

/-- A Python for loop producing one output per item: the body runs on each
item in order and an exception raised on one item aborts the loop, discarding
the whole result. -/
def mapEx {α β : Type} (f : α → Except PyError β) : List α → Except PyError (List β)
  | [] => .ok []
  | a :: as => do
      let b ← f a
      let bs ← mapEx f as
      pure (b :: bs)

/-- A source file as check_file sees it: its name and the combined result of
opening, reading and ast.parse — an exception from any of those steps is the
error value. -/
structure SourceFile where
  name : String
  parsed : Except PyError (List Stmt)

/-- check_file: propagate a read or parse failure, run the visitor, then
dispatch every collected context in order; any exception aborts the loop. -/
def check_file (tf : String) (fields : List (CurationKey × List CurationVal))
    (file : SourceFile) : Except PyError (List RecordOutput) := do
  let tree ← file.parsed
  let calls ← runVisitor tf file.name tree
  mapEx (resolveContext fields) calls

/-- main over an explicit file list: parse the curation rows once, then
check each file in order; an exception raised inside check_file propagates
out of the loop, so the remaining files are not scanned. The recursive
directory walk issues the same check_file calls and is not modelled
separately. -/
def mainScan (tf : String) (rows : List CurationRow) (files : List SourceFile) :
    Except PyError (List (List RecordOutput)) :=
  mapEx (check_file tf (parse rows)) files

mutual

/-- A statement tree containing no function definition anywhere (class bodies
included). Under this restriction the single prev_function cell is never
clobbered during a traversal. -/
def noFuncDefs : Stmt → Bool
  | .classDef _ body => noFuncDefsList body
  | .funcDef _ _ => false
  | .exprStmt _ => true

/-- noFuncDefs over a statement list. -/
def noFuncDefsList : List Stmt → Bool
  | [] => true
  | st :: rest => noFuncDefs st && noFuncDefsList rest

end

/-! Concrete inputs used by several scenarios. -/

/-- The module body of: def f(): db.view.view_call(some_var) -/
def srcB : List Stmt :=
  [.funcDef "f"
    [.exprStmt (.call (.attrAccess (.attrAccess (.name "db") "view") "view_call")
      [.name "some_var"] [] 2)]]

/-- The module body of: def f(): db.view_call(some_var) -/
def srcB1 : List Stmt :=
  [.funcDef "f"
    [.exprStmt (.call (.attrAccess (.name "db") "view_call") [.name "some_var"] [] 2)]]

/-- The Context the visitor collects from srcB. -/
def ctxB : Context :=
  ⟨"file.py", 2, "view", .str "<variable:some_var>", [], some "f", none⟩

/-- The Context the visitor collects from srcB1. -/
def ctxB1 : Context :=
  ⟨"file.py", 2, "<variable:db>", .str "<variable:some_var>", [], some "f", none⟩

/-- A curation row for (file.py, empty class, f) whose name cells hold the
bare identifier names db and some_var. -/
def rowC : CurationRow :=
  ⟨"file.py", "", "f", "db", "users_db", "some_var", "user_view"⟩

/-- A curation row for (file.py, empty class, f) whose name cells hold the
strings the scanner actually stores for srcB: the receiver literal view and
the argument marker. -/
def rowCm : CurationRow :=
  ⟨"file.py", "", "f", "view", "users_db", "<variable:some_var>", "user_view"⟩

/-- A fully literal call record in class Foo, function bar. -/
def ctxLit : Context :=
  ⟨"file.py", 3, "coll", .str "x", [], some "bar", some "Foo"⟩

/-- A curation row whose name cells equal the literal strings of ctxLit. -/
def rowLit : CurationRow :=
  ⟨"file.py", "Foo", "bar", "coll", "users_db", "x", "user_view"⟩

/-- A file whose source is: self.coll.find_one("x") at module level. -/
def goodFile : SourceFile :=
  ⟨"good.py", .ok [.exprStmt (.call (.attrAccess (.attrAccess (.name "self") "coll") "find_one")
    [.const "x"] [] 1)]⟩

/-- The direct report context collected from goodFile. -/
def ctxGood : Context := ⟨"good.py", 1, "coll", .str "x", [], none, none⟩

/-- A file whose read or ast.parse step raises. -/
def badFile : SourceFile := ⟨"bad.py", .error (.parseError "bad.py")⟩

/-- Nested functions three deep, with a target call in g after h's body and a
target call in f after g's body:
def f():
    def g():
        def h(): pass
        o.t()        (line 4)
    o.t()            (line 5) -/
def srcNested : List Stmt :=
  [.funcDef "f"
    [.funcDef "g"
      [.funcDef "h" [],
       .exprStmt (.call (.attrAccess (.name "o") "t") [] [] 4)],
     .exprStmt (.call (.attrAccess (.name "o") "t") [] [] 5)]]

/-- A target call statement on receiver o at the given line. -/
def callO (n : Nat) : Stmt := .exprStmt (.call (.attrAccess (.name "o") "t") [] [] n)

/-- Rows for the curation round-trip scenario: rowC and rowCm share the key
(file.py, empty, f); rowLit has the key (file.py, Foo, bar). -/
def rowsEx : List CurationRow := [rowLit, rowC, rowCm]

end StatusDB

namespace StatusDB

/-! Helper lemmas shared by the claim theorems. -/

/-- Inversion of a successful Except bind. -/
theorem exceptBind_ok {α β : Type} {x : Except PyError α} {f : α → Except PyError β} {b : β}
    (h : x >>= f = .ok b) : ∃ a, x = .ok a ∧ f a = .ok b := by
  cases x with
  | error e => simp [Bind.bind, Except.bind] at h
  | ok a => exact ⟨a, rfl, by simpa [Bind.bind, Except.bind] using h⟩

/-- A conditional-append left fold is a filter followed by a map. -/
theorem foldl_collect {α β : Type} (p : α → Bool) (f : α → β) :
    ∀ (l : List α) (init : List β),
      l.foldl (fun acc v => if p v then acc ++ [f v] else acc) init
        = init ++ (l.filter p).map f
  | [], init => by simp
  | v :: vs, init => by
      by_cases h : p v <;>
        simp [List.foldl_cons, h, foldl_collect p f vs, List.filter_cons]

/-- The loop of compare_against_manual_curation keeps exactly the value
tuples passing the matching test, in order, substituted into the record. -/
theorem compare_eq (fields : List (CurationKey × List CurationVal)) (context : Context) :
    compare_against_manual_curation fields context
      = ((lookupCuration fields context.to_key).filter
          (matchesCuration context)).map (substCuration context) := by
  unfold compare_against_manual_curation
  rw [foldl_collect]
  simp

/-- Dictionary lookup after one parse step. -/
theorem lookup_appendEntry (fields : List (CurationKey × List CurationVal))
    (k : CurationKey) (v : CurationVal) (k' : CurationKey) :
    lookupCuration (appendEntry fields k v) k'
      = if k' = k then lookupCuration fields k' ++ [v] else lookupCuration fields k' := by
  induction fields with
  | nil =>
      by_cases h : k' = k
      · subst h; simp [appendEntry, lookupCuration]
      · have h2 : ¬(k = k') := fun hh => h hh.symm
        simp [appendEntry, lookupCuration, h, h2]
  | cons hd tl ih =>
      obtain ⟨k0, vs⟩ := hd
      by_cases h0 : k0 = k
      · subst h0
        by_cases h : k' = k0
        · subst h; simp [appendEntry, lookupCuration]
        · have h2 : ¬(k0 = k') := fun hh => h hh.symm
          simp [appendEntry, lookupCuration, h, h2]
      · by_cases h1 : k0 = k'
        · subst h1
          simp [appendEntry, lookupCuration, h0]
        · by_cases h : k' = k
          · subst h
            simp [appendEntry, lookupCuration, h0, h1, ih]
          · simp [appendEntry, lookupCuration, h0, h1, h, ih]

/-- Generalisation of lookup after parse to an arbitrary starting dictionary. -/
theorem lookup_parse_aux (rows : List CurationRow) :
    ∀ (fields : List (CurationKey × List CurationVal)) (k : CurationKey),
      lookupCuration (rows.foldl (fun fs r => appendEntry fs (rowKey r) (rowVal r)) fields) k
        = lookupCuration fields k ++ (rows.filter (fun r => rowKey r == k)).map rowVal := by
  induction rows with
  | nil => intro fields k; simp
  | cons r rows ih =>
      intro fields k
      rw [List.foldl_cons, ih, lookup_appendEntry, List.filter_cons]
      by_cases h : rowKey r = k
      · simp [h]
      · have h2 : ¬(k = rowKey r) := fun hh => h hh.symm
        simp [h, h2]

/-- Lookup in a freshly parsed curation table returns exactly the value
tuples of the rows with that key, in row order. -/
theorem lookup_parse (rows : List CurationRow) (k : CurationKey) :
    lookupCuration (parse rows) k = (rows.filter (fun r => rowKey r == k)).map rowVal := by
  unfold parse
  rw [lookup_parse_aux]
  simp [lookupCuration]

/-- A parse or read failure makes check_file raise. -/
theorem check_file_err (tf : String) (fields : List (CurationKey × List CurationVal))
    (file : SourceFile) (e : PyError) (h : file.parsed = .error e) :
    check_file tf fields file = .error e := by
  simp [check_file, h, Bind.bind, Except.bind]

mutual

/-- Expression traversal only records contexts carrying the ambient function
scope (and never changes any scope). -/
theorem collectCalls_scope : ∀ (tf file : String) (fs cs : Option String) (e : Expr)
    (l : List Context), collectCalls tf file fs cs e = .ok l →
    ∀ c ∈ l, c.function_scope = fs
  | tf, file, fs, cs, .name id, l, h => by
      simp [collectCalls] at h; subst h; simp
  | tf, file, fs, cs, .const v, l, h => by
      simp [collectCalls] at h; subst h; simp
  | tf, file, fs, cs, .formatted v, l, h =>
      collectCalls_scope tf file fs cs v l h
  | tf, file, fs, cs, .fstring vs, l, h =>
      collectCallsList_scope tf file fs cs vs l h
  | tf, file, fs, cs, .attrAccess v fld, l, h =>
      collectCalls_scope tf file fs cs v l h
  | tf, file, fs, cs, .call fn args kw n, l, h => by
      simp only [collectCalls] at h
      obtain ⟨here, h1, h'⟩ := exceptBind_ok h
      obtain ⟨fromFunc, h2, h''⟩ := exceptBind_ok h'
      obtain ⟨fromArgs, h3, h4⟩ := exceptBind_ok h''
      have hl : l = here ++ (fromFunc ++ fromArgs) := by
        simpa [Pure.pure, Except.pure] using h4.symm
      subst hl
      intro c hc
      rcases List.mem_append.mp hc with hc1 | hc23
      · cases fn with
        | attrAccess base a =>
            simp only [visitTargetCall] at h1
            by_cases ha : (a == tf) = true
            · rw [if_pos ha] at h1
              obtain ⟨argv, hA, hB⟩ := exceptBind_ok h1
              obtain ⟨obj, hO, hP⟩ := exceptBind_ok hB
              have hh : here = [⟨file, n, obj, argv, kw, fs, cs⟩] := by
                simpa [Pure.pure, Except.pure] using hP.symm
              subst hh
              simp at hc1
              subst hc1
              rfl
            · rw [if_neg ha] at h1
              have hh : here = [] := by simpa [Pure.pure, Except.pure] using h1.symm
              subst hh
              simp at hc1
        | name id =>
            simp only [visitTargetCall, Pure.pure, Except.pure] at h1
            have hh : here = [] := by simpa using h1.symm
            subst hh; simp at hc1
        | const v =>
            simp only [visitTargetCall, Pure.pure, Except.pure] at h1
            have hh : here = [] := by simpa using h1.symm
            subst hh; simp at hc1
        | formatted v =>
            simp only [visitTargetCall, Pure.pure, Except.pure] at h1
            have hh : here = [] := by simpa using h1.symm
            subst hh; simp at hc1
        | fstring vs =>
            simp only [visitTargetCall, Pure.pure, Except.pure] at h1
            have hh : here = [] := by simpa using h1.symm
            subst hh; simp at hc1
        | call f2 a2 k2 n2 =>
            simp only [visitTargetCall, Pure.pure, Except.pure] at h1
            have hh : here = [] := by simpa using h1.symm
            subst hh; simp at hc1
      · rcases List.mem_append.mp hc23 with hc2 | hc3
        · exact collectCalls_scope tf file fs cs fn fromFunc h2 c hc2
        · exact collectCallsList_scope tf file fs cs args fromArgs h3 c hc3

/-- The list form of collectCalls_scope. -/
theorem collectCallsList_scope : ∀ (tf file : String) (fs cs : Option String)
    (es : List Expr) (l : List Context), collectCallsList tf file fs cs es = .ok l →
    ∀ c ∈ l, c.function_scope = fs
  | tf, file, fs, cs, [], l, h => by
      simp [collectCallsList] at h; subst h; simp
  | tf, file, fs, cs, e :: es, l, h => by
      simp only [collectCallsList] at h
      obtain ⟨l1, h1, h'⟩ := exceptBind_ok h
      obtain ⟨l2, h2, h3⟩ := exceptBind_ok h'
      have hl : l = l1 ++ l2 := by simpa [Pure.pure, Except.pure] using h3.symm
      subst hl
      intro c hc
      rcases List.mem_append.mp hc with hc1 | hc2
      · exact collectCalls_scope tf file fs cs e l1 h1 c hc1
      · exact collectCallsList_scope tf file fs cs es l2 h2 c hc2

end

mutual

/-- Running the visitor over a funcDef-free statement leaves the function
scope fields unchanged and only appends contexts carrying the ambient
function scope. -/
theorem visitStmt_noFunc : ∀ (tf file : String) (st : Stmt), noFuncDefs st = true →
    ∀ (s s' : VState), visitStmt tf file s st = .ok s' →
    s'.current_function = s.current_function ∧ s'.prev_function = s.prev_function ∧
    ∃ new, s'.function_calls = s.function_calls ++ new ∧
      ∀ c ∈ new, c.function_scope = s.current_function
  | tf, file, .exprStmt e, _, s, s', h => by
      simp only [visitStmt] at h
      obtain ⟨cs2, h1, h2⟩ := exceptBind_ok h
      have hs : s' = { s with function_calls := s.function_calls ++ cs2 } := by
        simpa [Pure.pure, Except.pure] using h2.symm
      subst hs
      exact ⟨rfl, rfl, cs2, rfl,
        collectCalls_scope tf file s.current_function s.current_class e cs2 h1⟩
  | tf, file, .classDef nm body, hnf, s, s', h => by
      simp only [visitStmt] at h
      obtain ⟨s1, h1, h2⟩ := exceptBind_ok h
      have hs : s' = { s1 with current_class := none } := by
        simpa [Pure.pure, Except.pure] using h2.symm
      subst hs
      have hnf2 : noFuncDefsList body = true := by simpa [noFuncDefs] using hnf
      obtain ⟨hcur, hprev, new, hcalls, hscope⟩ :=
        visitStmts_noFunc tf file body hnf2 _ _ h1
      exact ⟨hcur, hprev, new, hcalls, hscope⟩
  | tf, file, .funcDef nm body, hnf, s, s', h => by
      simp [noFuncDefs] at hnf

/-- The list form of visitStmt_noFunc. -/
theorem visitStmts_noFunc : ∀ (tf file : String) (ss : List Stmt),
    noFuncDefsList ss = true →
    ∀ (s s' : VState), visitStmts tf file s ss = .ok s' →
    s'.current_function = s.current_function ∧ s'.prev_function = s.prev_function ∧
    ∃ new, s'.function_calls = s.function_calls ++ new ∧
      ∀ c ∈ new, c.function_scope = s.current_function
  | tf, file, [], _, s, s', h => by
      simp only [visitStmts] at h
      have hs : s' = s := by simpa using h.symm
      subst hs
      exact ⟨rfl, rfl, [], by simp, by simp⟩
  | tf, file, st :: rest, hnf, s, s', h => by
      simp only [visitStmts] at h
      obtain ⟨s1, h1, h2⟩ := exceptBind_ok h
      have hnfs : noFuncDefs st = true ∧ noFuncDefsList rest = true := by
        simpa [noFuncDefsList, Bool.and_eq_true] using hnf
      obtain ⟨ha, hb, new1, hc, hd⟩ := visitStmt_noFunc tf file st hnfs.1 s s1 h1
      obtain ⟨ha2, hb2, new2, hc2, hd2⟩ := visitStmts_noFunc tf file rest hnfs.2 s1 s' h2
      refine ⟨ha2.trans ha, hb2.trans hb, new1 ++ new2, ?_, ?_⟩
      · rw [hc2, hc, List.append_assoc]
      · intro c hcm
        rcases List.mem_append.mp hcm with hm | hm
        · exact hd c hm
        · exact (hd2 c hm).trans ha

end

/-- Statement traversal distributes over list append. -/
theorem visitStmts_append (tf file : String) :
    ∀ (l1 l2 : List Stmt) (s : VState),
      visitStmts tf file s (l1 ++ l2)
        = visitStmts tf file s l1 >>= fun s1 => visitStmts tf file s1 l2
  | [], l2, s => by simp [visitStmts, Bind.bind, Except.bind]
  | st :: rest, l2, s => by
      simp only [List.cons_append, visitStmts]
      cases h : visitStmt tf file s st with
      | error e => simp [Bind.bind, Except.bind]
      | ok s1 => simp [Bind.bind, Except.bind, visitStmts_append tf file rest l2 s1]

/-- When every classification in the loop succeeds, the reassignment loop
returns the classification of the last element, whatever the initial value. -/
theorem foldArg_last : ∀ (a : Expr) (args : List Expr) (init : PyVal),
    (∀ x ∈ a :: args, ∃ w, classifyArg x = .ok w) →
    List.foldlM (fun _ arg => classifyArg arg) init (a :: args)
      = classifyArg ((a :: args).getLastD a)
  | a, [], init, h => by
      obtain ⟨w, hw⟩ := h a (by simp)
      simp [List.foldlM, hw, List.getLastD]
  | a, b :: args, init, h => by
      obtain ⟨w, hw⟩ := h a (by simp)
      have ih := foldArg_last b args w (fun x hx => h x (by simp at hx ⊢; tauto))
      simp [List.foldlM, hw, List.getLastD_cons] at ih ⊢
      exact ih

/-! The claims. -/

/-- C1, counterexample to the claim as stated. The claim asserts a resolved
report is produced exactly when the record receiver equals
UnknownVariable(entry receiver name) and the argument equals
UnknownVariable(entry argument name), and in particular that the scenario
source def f(): db.view.view_call(some_var) with a curation row carrying
receiver name db and argument name some_var yields a resolved report with
users_db and user_view. In fact that scenario yields no curated report (a
suggestion is emitted instead), and for the source def f():
db.view_call(some_var), whose record receiver IS the unknown-variable marker
for db and whose argument IS the marker for some_var, the same row is in the
lookup result, both marker equalities of the claim hold, and still no report
is produced, because the code compares raw strings and never wraps the name
cells in the marker. -/
theorem C1_counterexample :
    runVisitor "view_call" "file.py" srcB = .ok [ctxB] ∧
    compare_against_manual_curation (parse [rowC]) ctxB = [] ∧
    check_file "view_call" (parse [rowC]) ⟨"file.py", .ok srcB⟩
      = .ok [.suggestion "file.py,,f,view,view,<variable:some_var>,---possible view value---\n"] ∧
    runVisitor "view_call" "file.py" srcB1 = .ok [ctxB1] ∧
    lookupCuration (parse [rowC]) ctxB1.to_key = [rowVal rowC] ∧
    ctxB1.object = unknownVariable rowC.Database_variable_name ∧
    ctxB1.argument = .str (unknownVariable rowC.View_variable_name) ∧
    compare_against_manual_curation (parse [rowC]) ctxB1 = [] :=
  ⟨rfl, rfl, rfl, rfl, rfl, rfl, rfl, rfl⟩

/-- C1 (corrected): for every curation entry under the record key, a
resolved report is produced from that entry if and only if the record
receiver string equals the entry receiver-name cell and the record argument
equals the entry argument-name cell under plain string equality, with no
marker wrapping or stripping; the report substitutes the entry receiver
value and argument value and copies everything else. Consequently the
scenario record for def f(): db.view.view_call(some_var), whose receiver
string is the literal view, produces the users_db / user_view report exactly
from a row whose name cells are view and the some_var marker text. -/
theorem C1_corrected :
    (∀ (fields : List (CurationKey × List CurationVal)) (context : Context),
        compare_against_manual_curation fields context
          = ((lookupCuration fields context.to_key).filter
              (matchesCuration context)).map (substCuration context)) ∧
    compare_against_manual_curation (parse [rowCm]) ctxB
      = [{ ctxB with object := "users_db", argument := .str "user_view" }] :=
  ⟨compare_eq, rfl⟩

/-- C2, counterexample to the claim as stated. The claim says an
attribute-access receiver whose BASE is the identifier db maps to the
unknown-variable marker, and every other attribute receiver maps to its
rightmost name. In fact the code tests the rightmost accessed name: the
receiver db.view (base db) yields the literal view, not the db marker, and
the receiver self.db (base self) yields the db marker, not the literal db. -/
theorem C2_counterexample :
    classifyReceiver (.attrAccess (.name "db") "view") = .ok "view" ∧
    ("view" : String) ≠ unknownVariable "db" ∧
    classifyReceiver (.attrAccess (.name "self") "db") = .ok (unknownVariable "db") ∧
    unknownVariable "db" ≠ "db" :=
  ⟨rfl, by decide, rfl, by decide⟩

/-- C2 (corrected): for every matched call whose receiver is an attribute
access, the recorded object is the db marker when the rightmost accessed
name equals db (case-sensitive), and otherwise the rightmost accessed name
as a literal; the name of the base identifier is irrelevant. Stated on the
full visit of a matched call with receiver base.a and one bare-name
argument. -/
theorem C2_corrected :
    ∀ (b a tf file arg : String) (fs cs : Option String) (n : Nat),
      collectCalls tf file fs cs
          (.call (.attrAccess (.attrAccess (.name b) a) tf) [.name arg] [] n)
        = .ok [⟨file, n, if a == "db" then "<variable:db>" else a,
                .str (unknownVariable arg), [], fs, cs⟩] := by
  intro b a tf file arg fs cs n
  simp [collectCalls, collectCallsList, visitTargetCall, computeArgument, classifyArg,
    classifyReceiver, Bind.bind, Except.bind, Pure.pure, Except.pure]

/-- C3, counterexample to the claim as stated. The claim says the recorded
argument is the classification of the FIRST positional argument for every
call. For o.find_one(a, b) the recorded argument is the marker for b, the
classification of the last positional argument, not the marker for a. -/
theorem C3_counterexample :
    runVisitor "find_one" "file.py"
        [.exprStmt (.call (.attrAccess (.name "o") "find_one")
          [.name "a", .name "b"] [] 1)]
      = .ok [⟨"file.py", 1, unknownVariable "o", .str (unknownVariable "b"), [], none, none⟩] ∧
    unknownVariable "b" ≠ unknownVariable "a" :=
  ⟨rfl, by decide⟩

/-- C3 (corrected): the argument loop reassigns the argument variable on
every positional argument, so when every positional argument classifies
without an exception the recorded argument is the classification of the
LAST positional argument, and with no positional arguments it is the empty
string. -/
theorem C3_corrected (args : List Expr)
    (h : ∀ x ∈ args, ∃ w, classifyArg x = .ok w) :
    computeArgument args = (match args with
      | [] => .ok (.str "")
      | a :: rest => classifyArg ((a :: rest).getLastD a)) := by
  cases args with
  | nil => rfl
  | cons a rest => exact foldArg_last a rest (.str "") h

/-- C3 witness: on the two-argument call arguments a, b the loop yields the
marker for b. -/
theorem C3_witness :
    computeArgument [Expr.name "a", Expr.name "b"] = .ok (.str "<variable:b>") := by
  have h := C3_corrected [Expr.name "a", Expr.name "b"]
    (by intro x hx; simp at hx; rcases hx with hx | hx <;> subst hx <;> exact ⟨_, rfl⟩)
  exact h.trans rfl

/-- C4, counterexample to the claim as stated. The claim says unsupported
expression shapes never crash classification and in particular that
get_db().find_one(helper()) is processed without an exception. In fact the
argument helper() reaches the fallback argument = arg.value and an ast.Call
has no value field, so the visit raises AttributeError and the file scan is
aborted. -/
theorem C4_counterexample :
    runVisitor "find_one" "file.py"
        [.exprStmt (.call (.attrAccess (.call (.name "get_db") [] [] 1) "find_one")
          [.call (.name "helper") [] [] 1] [] 1)]
      = .error (.attributeError "value") :=
  rfl

/-- C4 (corrected): classification of unsupported shapes is partial, not
degrading: a call-expression argument raises AttributeError on the missing
value field, a call-expression receiver raises AttributeError on the missing
attr field, and for get_db().find_one(helper()) the whole check of the file
aborts with that exception instead of continuing with a sentinel. -/
theorem C4_corrected :
    (∀ (f : Expr) (a : List Expr) (k : List String) (n : Nat),
        classifyArg (.call f a k n) = .error (.attributeError "value")) ∧
    (∀ (f : Expr) (a : List Expr) (k : List String) (n : Nat),
        classifyReceiver (.call f a k n) = .error (.attributeError "attr")) ∧
    check_file "find_one" (parse [])
        ⟨"file.py", .ok [.exprStmt (.call
          (.attrAccess (.call (.name "get_db") [] [] 1) "find_one")
          [.call (.name "helper") [] [] 1] [] 1)]⟩
      = .error (.attributeError "value") :=
  ⟨fun _ _ _ _ => rfl, fun _ _ _ _ => rfl, rfl⟩

/-- C5, counterexample to the claim as stated. The claim says a read or
parse failure on one file is logged, the file skipped, and every remaining
file still scanned. In fact check_file has no exception handling: with the
failing file first, the run aborts with the exception and the second file,
which scans fine on its own, is never reached. -/
theorem C5_counterexample :
    mainScan "find_one" [] [badFile, goodFile] = .error (.parseError "bad.py") ∧
    mainScan "find_one" [] [goodFile] = .ok [[.direct ctxGood]] :=
  ⟨rfl, rfl⟩

/-- C5 (corrected): a read or parse failure on any file aborts the whole
scan at that file: whatever files with successful checks precede it, the
run stops with that exception and no later file is scanned. -/
theorem C5_corrected (tf : String) (rows : List CurationRow) (post : List SourceFile)
    (bad : SourceFile) (e : PyError) (hbad : bad.parsed = .error e) :
    ∀ (pre : List SourceFile),
      (∀ f ∈ pre, ∃ out, check_file tf (parse rows) f = .ok out) →
      mainScan tf rows (pre ++ bad :: post) = .error e
  | [], _ => by
      simp [mainScan, mapEx, check_file_err tf (parse rows) bad e hbad,
        Bind.bind, Except.bind]
  | f :: pre, hpre => by
      obtain ⟨out, hout⟩ := hpre f (by simp)
      have ih := C5_corrected tf rows post bad e hbad pre (fun f hf => hpre f (by simp [hf]))
      simp only [mainScan, List.cons_append] at ih ⊢
      simp [mapEx, hout, ih, Bind.bind, Except.bind]

/-- C5 witness: a good file, then the failing file, then another good file;
the scan stops at the failing file. -/
theorem C5_witness :
    mainScan "find_one" [] [goodFile, badFile, goodFile]
      = .error (.parseError "bad.py") :=
  C5_corrected "find_one" [] [goodFile] badFile (.parseError "bad.py") rfl [goodFile]
    (by intro f hf; simp at hf; subst hf; exact ⟨[.direct ctxGood], rfl⟩)

/-- C6, counterexample to the claim as stated. The claim says the scenario
def f(): db.view.view_call(some_var) with no matching curation row emits the
suggestion line file,,f,variable-db-marker,db placeholder,some_var marker,
view placeholder. In fact the receiver of view_call is the attribute access
db.view, whose rightmost name view is not db, so the record receiver is the
literal view: the emitted line carries view,view on the receiver side and
only the argument side carries a marker and a placeholder. -/
theorem C6_counterexample :
    runVisitor "view_call" "file.py" srcB = .ok [ctxB] ∧
    resolveContext (parse []) ctxB
      = .ok (.suggestion "file.py,,f,view,view,<variable:some_var>,---possible view value---\n") ∧
    ("file.py,,f,view,view,<variable:some_var>,---possible view value---\n" : String)
      ≠ "file.py,,f,<variable:db>,---possible db value---,<variable:some_var>,---possible view value---" ∧
    ("file.py,,f,view,view,<variable:some_var>,---possible view value---\n" : String)
      ≠ "file.py,,f,<variable:db>,---possible db value---,<variable:some_var>,---possible view value---\n" :=
  ⟨rfl, rfl, by decide, by decide⟩

/-- C6 (corrected): for the scenario source with target view_call and an
empty curation table, the single emitted output is the suggestion line
file.py,,f,view,view,some_var marker,view placeholder followed by a newline:
the receiver side repeats the literal view and only the argument side
carries the variable marker and the view placeholder. -/
theorem C6_corrected :
    check_file "view_call" (parse []) ⟨"file.py", .ok srcB⟩
      = .ok [.suggestion "file.py,,f,view,view,<variable:some_var>,---possible view value---\n"] :=
  rfl

/-- C7 (confirmed): whenever some curation entry under the record key passes
the matching test, the list built from curation is non-empty, and the
record produces exactly the curated reports: the direct report and the
suggestion are both suppressed, whatever the record contents (in particular
for a fully literal record). -/
theorem C7_confirmed (fields : List (CurationKey × List CurationVal)) (context : Context)
    (val_t : CurationVal) (hmem : val_t ∈ lookupCuration fields context.to_key)
    (hmatch : matchesCuration context val_t = true) :
    compare_against_manual_curation fields context ≠ [] ∧
    resolveContext fields context
      = .ok (.curated (compare_against_manual_curation fields context)) := by
  have hne : compare_against_manual_curation fields context ≠ [] := by
    rw [compare_eq]
    intro hnil
    have hmemf : val_t ∈ (lookupCuration fields context.to_key).filter
        (matchesCuration context) := List.mem_filter.mpr ⟨hmem, hmatch⟩
    rw [List.map_eq_nil_iff] at hnil
    rw [hnil] at hmemf
    exact absurd hmemf (List.not_mem_nil _)
  refine ⟨hne, ?_⟩
  cases hx : compare_against_manual_curation fields context with
  | nil => exact absurd hx hne
  | cons a l => simp [resolveContext, hx]

/-- C7 witness: a fully literal record whose key and strings match a
curation row produces the curated output. -/
theorem C7_witness :
    resolveContext (parse [rowLit]) ctxLit
      = .ok (.curated (compare_against_manual_curation (parse [rowLit]) ctxLit)) :=
  (C7_confirmed (parse [rowLit]) ctxLit (rowVal rowLit) (by decide) rfl).2

/-- C8, counterexample to the claim as stated. The claim says that for a
function nested exactly one level inside another, call records after the
inner body carry the outer name, and that in general exiting a function
definition restores the previously active name. In the program def f():
def g(): (def h(): pass; o.t()); o.t(), g is nested exactly one level
inside f, yet the call after the body of g still carries g: entering h
overwrote the single prev_function cell with g, so exiting g restored g
instead of f. -/
theorem C8_counterexample :
    (runVisitor "t" "file.py" srcNested).map (fun cs => cs.map (·.function_scope))
      = .ok [some "g", some "g"] ∧
    (some "g" : Option String) ≠ some "f" :=
  ⟨rfl, by decide⟩

/-- C8 (corrected): the depth-one guarantee holds only when no further
function definition occurs inside the bodies: for a program consisting of an
outer function f whose body is funcDef-free statements, then an inner
function g with a funcDef-free body, then funcDef-free statements, the
collected records split into records from before g carrying f, records from
the body of g carrying g, and records from after g carrying f again. In
general exiting a function definition restores the name saved at the most
recent function entry anywhere in the traversal, not the previously active
name. -/
theorem C8_corrected (tf file f g : String) (body1 inner body2 : List Stmt)
    (h1 : noFuncDefsList body1 = true) (h2 : noFuncDefsList inner = true)
    (h3 : noFuncDefsList body2 = true) (ctxs : List Context)
    (hrun : runVisitor tf file
      [.funcDef f (body1 ++ .funcDef g inner :: body2)] = .ok ctxs) :
    ∃ l1 l2 l3, ctxs = (l1 ++ l2) ++ l3 ∧
      (∀ c ∈ l1, c.function_scope = some f) ∧
      (∀ c ∈ l2, c.function_scope = some g) ∧
      (∀ c ∈ l3, c.function_scope = some f) := by
  unfold runVisitor at hrun
  cases hv : visitStmts tf file ⟨[], none, none, none⟩
      [.funcDef f (body1 ++ .funcDef g inner :: body2)] with
  | error e => rw [hv] at hrun; simp [Except.map] at hrun
  | ok sEnd =>
    rw [hv] at hrun
    have hctxs : ctxs = sEnd.function_calls := by simpa [Except.map] using hrun.symm
    simp only [visitStmts] at hv
    obtain ⟨sMid, hstmt, hnil⟩ := exceptBind_ok hv
    have hEnd : sEnd = sMid := by
      have hh : Except.ok sMid = Except.ok sEnd := hnil
      simpa using hh.symm
    subst hEnd
    simp only [visitStmt] at hstmt
    obtain ⟨sBody, hbig, hpure⟩ := exceptBind_ok hstmt
    have hMid : sEnd = { sBody with current_function := sBody.prev_function } := by
      simpa [Pure.pure, Except.pure] using hpure.symm
    rw [visitStmts_append] at hbig
    obtain ⟨sA, hb1, hrest⟩ := exceptBind_ok hbig
    simp only [visitStmts] at hrest
    obtain ⟨sC, hg, hb2⟩ := exceptBind_ok hrest
    simp only [visitStmt] at hg
    obtain ⟨sB, hinner, hpure2⟩ := exceptBind_ok hg
    have hC : sC = { sB with current_function := sB.prev_function } := by
      simpa [Pure.pure, Except.pure] using hpure2.symm
    obtain ⟨hA1, hA2, new1, hA3, hA4⟩ := visitStmts_noFunc tf file body1 h1 _ _ hb1
    obtain ⟨hB1, hB2, new2, hB3, hB4⟩ := visitStmts_noFunc tf file inner h2 _ _ hinner
    obtain ⟨hD1, hD2, new3, hD3, hD4⟩ := visitStmts_noFunc tf file body2 h3 _ _ hb2
    subst hC
    subst hMid
    refine ⟨new1, new2, new3, ?_, ?_, ?_, ?_⟩
    · rw [hctxs]
      show sBody.function_calls = (new1 ++ new2) ++ new3
      rw [hD3]
      show sB.function_calls ++ new3 = (new1 ++ new2) ++ new3
      rw [hB3]
      show sA.function_calls ++ new2 ++ new3 = (new1 ++ new2) ++ new3
      rw [hA3]
      simp
    · intro c hc
      exact hA4 c hc
    · intro c hc
      exact hB4 c hc
    · intro c hc
      have hsc := hD4 c hc
      rw [hsc]
      show sB.prev_function = some f
      rw [hB2]
      show sA.current_function = some f
      rw [hA1]

/-- C8 witness: a call before g, a call inside g, a call after g, with no
deeper nesting; the split is line 2 with f, line 3 with g, line 4 with f. -/
theorem C8_witness :
    ∃ l1 l2 l3,
      ([⟨"w.py", 2, unknownVariable "o", .str "", [], some "f", none⟩,
        ⟨"w.py", 3, unknownVariable "o", .str "", [], some "g", none⟩,
        ⟨"w.py", 4, unknownVariable "o", .str "", [], some "f", none⟩]
        : List Context) = (l1 ++ l2) ++ l3 ∧
      (∀ c ∈ l1, c.function_scope = some "f") ∧
      (∀ c ∈ l2, c.function_scope = some "g") ∧
      (∀ c ∈ l3, c.function_scope = some "f") :=
  C8_corrected "t" "w.py" "f" "g" [callO 2] [callO 3] [callO 4] rfl rfl rfl _ rfl

/-- C9 (confirmed): after parsing a curation resource, looking up any key
present among the rows returns exactly the value tuples of the rows with
that key, in row order, and that sequence is non-empty; looking up a key
absent from the rows returns the empty sequence and is not an error. -/
theorem C9_confirmed (rows : List CurationRow) (k : CurationKey) :
    (k ∈ rows.map rowKey →
      lookupCuration (parse rows) k
        = (rows.filter (fun r => rowKey r == k)).map rowVal ∧
      lookupCuration (parse rows) k ≠ []) ∧
    (k ∉ rows.map rowKey → lookupCuration (parse rows) k = []) := by
  constructor
  · intro hk
    refine ⟨lookup_parse rows k, ?_⟩
    rw [lookup_parse]
    obtain ⟨r, hr, hkey⟩ := List.mem_map.mp hk
    intro hnil
    have hmemf : r ∈ rows.filter (fun r => rowKey r == k) :=
      List.mem_filter.mpr ⟨hr, by simp [hkey]⟩
    rw [List.map_eq_nil_iff] at hnil
    rw [hnil] at hmemf
    exact absurd hmemf (List.not_mem_nil _)
  · intro hk
    rw [lookup_parse]
    have hfil : rows.filter (fun r => rowKey r == k) = [] := by
      rw [List.filter_eq_nil_iff]
      intro r hr hbeq
      exact hk (List.mem_map.mpr ⟨r, hr, by simpa using hbeq⟩)
    simp [hfil]

/-- C9 witness: in the three-row table the shared key returns its two rows
in order, and an absent key returns the empty sequence. -/
theorem C9_witness :
    lookupCuration (parse rowsEx) ("file.py", "", "f") = [rowVal rowC, rowVal rowCm] ∧
    lookupCuration (parse rowsEx) ("file.py", "zzz", "f") = [] := by
  constructor
  · have h := (C9_confirmed rowsEx ("file.py", "", "f")).1 (by decide)
    exact h.1.trans (by rfl)
  · exact (C9_confirmed rowsEx ("file.py", "zzz", "f")).2 (by decide)

/-- C10 (confirmed): a call whose callee is a bare name contributes no call
record itself, whatever the name, even when it equals the target function;
only its child nodes are traversed. Concretely, find_one(x) with target
find_one yields no records at all. -/
theorem C10_confirmed :
    (∀ (tf file id : String) (fs cs : Option String) (args : List Expr)
        (kw : List String) (n : Nat),
        collectCalls tf file fs cs (.call (.name id) args kw n)
          = collectCallsList tf file fs cs args) ∧
    runVisitor "find_one" "file.py"
        [.exprStmt (.call (.name "find_one") [.name "x"] [] 1)] = .ok [] := by
  constructor
  · intro tf file id fs cs args kw n
    cases h : collectCallsList tf file fs cs args with
    | error e =>
        simp [collectCalls, visitTargetCall, h, Bind.bind, Except.bind,
          Pure.pure, Except.pure]
    | ok l =>
        simp [collectCalls, visitTargetCall, h, Bind.bind, Except.bind,
          Pure.pure, Except.pure]
  · rfl

end StatusDB
